import Mathlib

/-!
Verification development for the Room peer-to-peer chat library
(`@agree-able/room`).  The definitions below are a shallow embedding of
the JavaScript source (`index.mjs`): log-entry values, the autobase
`apply` materializer, the `ready()` view-append notification handler, the
room-lifecycle operations (`ready`, `exit`, manager `cleanup`), the
trust-negotiation handlers (`newRoom`, `roomExpectations`) and the z32
invite-text codec.  Theorems about the spec's claims follow the
definitions.
-/

namespace Room

/-- Truthiness of an optional JS string value: `undefined` and the empty
string are falsy, every other string is truthy. -/
def jsTruthyStr : Option String → Bool
  | none => false
  | some s => s ≠ ""

/-- The payload sitting under an entry's `addWriter` field.  In the source
it is either a raw key buffer (no `type` property) or a JSON-round-tripped
buffer object carrying a `type` tag (the "weird cycle" re-broadcast shape
checked by `if (value.addWriter.type) continue`). -/
structure AWPayload where
  key : List Nat
  typeTag : Option String
  deriving DecidableEq, Repr

/-- A log-entry value, as appended by `message`, `exit` and
`_connectOtherCore`: a JSON object that either carries an `addWriter`
field (control entry) or the data fields `when`/`who`/`data`, optionally
with an `event` marker. -/
structure Value where
  addWriter : Option AWPayload
  whenTs : Option Nat
  who : Option String
  data : Option String
  event : Option String
  deriving DecidableEq, Repr

/-- The state the `apply` function threads: the set of admitted writers
(`base.addWriter` calls, in order) and the materialized view. -/
structure ApplyState where
  writers : List (List Nat)
  view : List Value
  deriving DecidableEq, Repr

/-- One iteration of the loop body of `apply` (index.mjs): an entry whose
`addWriter` field is present is a membership mutation — skipped entirely
when its payload carries a truthy `type` tag, otherwise admitted via
`base.addWriter` — and never appended to the view; every other entry is
appended to the view verbatim. -/
def applyStep (st : ApplyState) (v : Value) : ApplyState :=
  match v.addWriter with
  | some aw =>
      if jsTruthyStr aw.typeTag then st
      else { st with writers := st.writers ++ [aw.key] }
  | none => { st with view := st.view ++ [v] }

/-- The `apply` function: fold the loop body over the newly merged nodes
(each node contributing its `value`). -/
def applyNodes (nodes : List Value) (st : ApplyState) : ApplyState :=
  nodes.foldl applyStep st

/-- The writer key admitted by a single entry, if any: `addWriter`
entries without a truthy `type` tag admit their key, all others admit
nothing. -/
def admittedKey (v : Value) : Option (List Nat) :=
  match v.addWriter with
  | some aw => if jsTruthyStr aw.typeTag then none else some aw.key
  | none => none

/-- A notification emitted by the view-append handler installed in
`ready()`: either a `message` event carrying the entry or a `peerLeft`
event carrying the entry's `who`. -/
inductive Notif where
  | message (entry : Value)
  | peerLeft (who : Option String)
  deriving DecidableEq, Repr

/-- The view-append handler installed by `ready()`
(`this.autobase.view.on('append', ...)`): read the entry at the last
view position; return silently when it is self-authored; emit `peerLeft`
for a `leftChat` entry; otherwise emit `message` at most once per view
length, tracked by `lastEmitMessageLength`.  Result: the updated
`lastEmitMessageLength` and the notifications emitted by this firing. -/
def appendHandler (localWho : String) (view : List Value) (lastLen : Nat) :
    Nat × List Notif :=
  match view.getLast? with
  | none => (lastLen, [])
  | some entry =>
      if entry.who = some localWho then (lastLen, [])
      else if entry.event = some "leftChat" then (lastLen, [Notif.peerLeft entry.who])
      else if lastLen = view.length then (lastLen, [])
      else (view.length, [Notif.message entry])

/-- A whole trace of append-signal firings: each firing observes the view
as it stands at that moment; the handler state `lastEmitMessageLength`
is threaded through and all emitted notifications are collected. -/
def runTrace (localWho : String) : List (List Value) → Nat → Nat × List Notif
  | [], lastLen => (lastLen, [])
  | v :: vs, lastLen =>
      let r := appendHandler localWho v lastLen
      let rest := runTrace localWho vs r.1
      (rest.1, r.2 ++ rest.2)

end Room

namespace Room

namespace z32

/-- Modelled from the spec: the alphabet of the z-base-32 invite text
codec.  The codec itself lives in the external `z32` package (not under
`src/`); the spec describes it as "a base-32–style encoding of the
underlying invite byte string" that "must round-trip byte-exact". -/
def alphabet : List Char :=
  ['y','b','n','d','r','f','g','8','e','j','k','m','c','p','q','x',
   'o','t','1','u','w','i','s','z','a','3','4','5','h','7','6','9']

/-- The `w` low bits of `b`, most significant first. -/
def natToBits : Nat → Nat → List Bool
  | 0, _ => []
  | w + 1, b => decide (b / 2 ^ w % 2 = 1) :: natToBits w b

/-- Accumulator form of most-significant-first binary valuation. -/
def bitsToNatAux : Nat → List Bool → Nat
  | acc, [] => acc
  | acc, b :: l => bitsToNatAux (2 * acc + b.toNat) l

def bitsToNat (l : List Bool) : Nat := bitsToNatAux 0 l

/-- Modelled from the spec: a byte string as a bit stream, each byte
contributing its 8 bits most significant first. -/
def toBits (bytes : List Nat) : List Bool := (bytes.map (natToBits 8)).flatten

/-- Modelled from the spec: the bit stream cut into 5-bit groups, the
final incomplete group padded with zero bits. -/
def toQuintets : List Bool → List Nat
  | [] => []
  | b0 :: b1 :: b2 :: b3 :: b4 :: rest =>
      bitsToNat [b0, b1, b2, b3, b4] :: toQuintets rest
  | l => [bitsToNat (l ++ List.replicate (5 - l.length) false)]

/-- Modelled from the spec: the bit stream cut back into bytes, a
trailing incomplete group dropped. -/
def fromOctets : List Bool → List Nat
  | b0 :: b1 :: b2 :: b3 :: b4 :: b5 :: b6 :: b7 :: rest =>
      bitsToNat [b0, b1, b2, b3, b4, b5, b6, b7] :: fromOctets rest
  | _ => []

def quintetChar (q : Nat) : Char := alphabet.getD q 'y'

def charIndex (c : Char) : Option Nat := alphabet.findIdx? (fun a => a = c)

/-- Modelled from the spec: `z32.encode`, the encoding half of the invite
text codec (external `z32` package, not under `src/`). -/
def encode (bytes : List Nat) : String :=
  ⟨(toQuintets (toBits bytes)).map quintetChar⟩

/-- Look up every character of the text in the alphabet, rejecting the
whole text when any character lies outside it. -/
def charsToQuintets : List Char → Option (List Nat)
  | [] => some []
  | c :: cs =>
      match charIndex c, charsToQuintets cs with
      | some q, some qs => some (q :: qs)
      | _, _ => none

/-- Modelled from the spec: `z32.decode`, the decoding half of the invite
text codec; characters outside the alphabet are rejected. -/
def decode (s : String) : Option (List Nat) :=
  (charsToQuintets s.data).map
    (fun qs => fromOctets ((qs.map (natToBits 5)).flatten))

end z32

end Room

namespace Room

/-- The `challengeResponse` object inside a keybase whoami claim: the
challenge text that was signed and the signature produced by `signText`. -/
structure ChallengeResponse where
  text : String
  signature : String
  deriving DecidableEq, Repr

/-- The keybase part of an acceptance's whoami claim
(`agreement.whoami.keybase`). -/
structure KeybaseClaim where
  username : Option String
  challengeResponse : ChallengeResponse
  deriving DecidableEq, Repr

/-- An acceptance's whoami claim (`agreement.whoami`). -/
structure WhoamiClaim where
  keybase : Option KeybaseClaim
  deriving DecidableEq, Repr

/-- The acceptance payload the `newRoom` handler receives; `accept` is
the opaque `agreement.accept` object passed through to the caller's
validation hook. -/
structure AgreementMsg where
  whoami : Option WhoamiClaim
  accept : String
  deriving DecidableEq, Repr

/-- The `participantDetails` record assembled by `newRoom` and handed to
the caller-supplied validation hook. -/
structure PDetails where
  remotePublicKey : String
  username : Option String
  verified : Option Bool
  deriving DecidableEq, Repr

/-- Result of the caller-supplied `validateParticipant` hook. -/
structure VResult where
  ok : Bool
  reason : String
  deriving DecidableEq, Repr

/-- Outcome of the `newRoom` handler: the structured `{ ok: true,
invite }` / `{ ok: false, reason }` responses, or a thrown error. -/
inductive NewRoomResult where
  | ok (invite : String)
  | err (reason : String)
  | threw (msg : String)
  deriving DecidableEq, Repr

/-- The external calls `newRoom` performs, in program order. -/
inductive NREffect where
  | verifySignedText
  | getKeybaseProofChain
  | validateParticipant
  | createReadyRoom
  deriving DecidableEq, Repr

/-- The whoami-verification prefix of the `newRoom` handler
(`startAgreeable` in index.mjs): when identity proof is required, a
missing whoami claim is rejected; a keybase claim with a falsy username
throws; a challenge-response text that differs from the challenge stored
for this remote public key is rejected as `challengeText was modified`;
otherwise the claim is verified (external `verifySignedText` and
`getKeybaseProofChain` calls) and the participant details are built; a
whoami claim of no known kind is rejected.  Returns either the built
participant details with the effects so far, or the early rejection. -/
def whoamiStep (whoamiRequired : Bool) (challengeTexts : String → Option String)
    (verify : ChallengeResponse → Option String → Bool)
    (agreement : AgreementMsg) (remotePublicKey : String) :
    (PDetails × List NREffect) ⊕ (NewRoomResult × List NREffect) :=
  if whoamiRequired then
    match agreement.whoami with
    | none => Sum.inr (.err "whoami requested and not provided", [])
    | some w =>
        match w.keybase with
        | some kb =>
            if jsTruthyStr kb.username then
              if challengeTexts remotePublicKey = some kb.challengeResponse.text then
                Sum.inl
                  ({ remotePublicKey := remotePublicKey, username := kb.username,
                     verified := some (verify kb.challengeResponse kb.username) },
                   [NREffect.verifySignedText, NREffect.getKeybaseProofChain])
              else Sum.inr (.err "challengeText was modified", [])
            else Sum.inr (.threw "participant username was not returned", [])
        | none =>
            Sum.inr (.err "participant did not provide any known whoami response", [])
  else
    Sum.inl
      ({ remotePublicKey := remotePublicKey, username := none, verified := none },
       [])

/-- The `newRoom` handler of `startAgreeable`: run the whoami checks,
then the caller-supplied validation hook if one was given, and only on
full success call `createReadyRoom` and answer `{ ok: true, invite }`.
The handler never mutates `challengeTexts`; the (unchanged) map is
returned alongside the outcome and the performed external calls. -/
def newRoom (whoamiRequired : Bool) (challengeTexts : String → Option String)
    (verify : ChallengeResponse → Option String → Bool)
    (validate : Option (String → PDetails → VResult))
    (newInvite : String) (agreement : AgreementMsg) (remotePublicKey : String) :
    NewRoomResult × List NREffect × (String → Option String) :=
  match whoamiStep whoamiRequired challengeTexts verify agreement remotePublicKey with
  | Sum.inr rejection => (rejection.1, rejection.2, challengeTexts)
  | Sum.inl (pd, effs) =>
      match validate with
      | none => (.ok newInvite, effs ++ [NREffect.createReadyRoom], challengeTexts)
      | some v =>
          if (v agreement.accept pd).ok then
            (.ok newInvite,
              effs ++ [NREffect.validateParticipant, NREffect.createReadyRoom],
              challengeTexts)
          else
            (.err (v agreement.accept pd).reason,
              effs ++ [NREffect.validateParticipant], challengeTexts)

/-- The host expectations configuration handed to `startAgreeable`. -/
structure ExpectationsCfg where
  whoamiRequired : Bool
  reason : String
  rules : String
  deriving DecidableEq, Repr

/-- The host's own identity offer added to the expectations when the
querying remote asked the host to sign a challenge. -/
structure WhoamiOffer where
  username : String
  challengeResponse : ChallengeResponse
  deriving DecidableEq, Repr

/-- The expectations answer produced by the `roomExpectations` handler. -/
structure ExpectationsOut where
  whoamiRequired : Bool
  reason : String
  rules : String
  whoami : Option WhoamiOffer
  challengeText : Option String
  deriving DecidableEq, Repr

/-- The `roomExpectations` handler of `startAgreeable`: clone the
configured expectations; when the query carries a truthy `challengeText`
sign it with the host credential (`sign` returns `none` when `signText`
threw — the failure is caught and only logged); when the host requires
identity proof from the remote, generate a fresh challenge
(`freshChallenge`), store it in `challengeTexts` under the remote public
key — overwriting any pending challenge for that key — and include it in
the answer. -/
def roomExpectations (expectations : ExpectationsCfg) (keybaseUsername : String)
    (sign : String → Option ChallengeResponse) (freshChallenge : String)
    (queryChallengeText : Option String) (remotePublicKey : String)
    (challengeTexts : String → Option String) :
    ExpectationsOut × (String → Option String) :=
  let base : ExpectationsOut :=
    { whoamiRequired := expectations.whoamiRequired,
      reason := expectations.reason, rules := expectations.rules,
      whoami := none, challengeText := none }
  let withSig : ExpectationsOut :=
    if jsTruthyStr queryChallengeText then
      match sign (queryChallengeText.getD "") with
      | some cr => { base with whoami := some ⟨keybaseUsername, cr⟩ }
      | none => base
    else base
  if ¬ expectations.whoamiRequired then (withSig, challengeTexts)
  else
    ({ withSig with challengeText := some freshChallenge },
      fun k => if k = remotePublicKey then some freshChallenge else challengeTexts k)

end Room

namespace Room

/-- The slice of a `BreakoutRoom`'s state that `ready()` touches: the
`initialized` guard, the (raw byte) `invite`, the `metadata.who` /
`metadata.host` fields and the notification length guard. -/
structure RoomReadyState where
  initialized : Bool
  invite : Option (List Nat)
  metaWho : Option String
  metaHostPublicKey : Option String
  metaHostDiscoveryKey : Option String
  lastEmitMessageLength : Option Nat
  deriving DecidableEq, Repr

/-- The external inputs `ready()` consumes: the local writer key
(`autobase.local.key`) and the invite/public-key/discovery-key triple
produced by `BlindPairing.createInvite` on the host path. -/
structure ReadyExt where
  localKey : List Nat
  createdInvite : List Nat
  createdPublicKey : List Nat
  createdDiscoveryKey : List Nat
  deriving DecidableEq, Repr

/-- What a `ready()` call returns to its caller: the z32-encoded invite
string (host first call), the raw invite bytes (`return this.invite` on
the early-return path), or `undefined` (joiner path). -/
inductive ReadyReturn where
  | encodedInvite (s : String)
  | rawInvite (b : List Nat)
  | undef
  deriving DecidableEq, Repr

/-- `BreakoutRoom.ready()`: an already-initialized session returns
`this.invite` as is (raw bytes when present, `undefined` otherwise);
otherwise the session is marked initialized, `metadata.who` is set to
the encoded local key and the length guard to `0`; a session holding an
invite (joiner) registers a pairing candidate and returns `undefined`;
a session without one (host) creates an invite, records the encoded host
keys in metadata, stores the raw invite bytes in `this.invite` and
returns the z32-encoded invite string. -/
def ready (ext : ReadyExt) (st : RoomReadyState) : RoomReadyState × ReadyReturn :=
  if st.initialized then
    (st, match st.invite with
         | some b => ReadyReturn.rawInvite b
         | none => ReadyReturn.undef)
  else
    let st1 : RoomReadyState :=
      { st with
        initialized := true
        metaWho := some (z32.encode ext.localKey)
        lastEmitMessageLength := some 0 }
    match st1.invite with
    | some _ => (st1, ReadyReturn.undef)
    | none =>
        ({ st1 with
            metaHostPublicKey := some (z32.encode ext.createdPublicKey)
            metaHostDiscoveryKey := some (z32.encode ext.createdDiscoveryKey)
            invite := some ext.createdInvite },
         ReadyReturn.encodedInvite (z32.encode ext.createdInvite))

/-- The slice of a `BreakoutRoom`'s state that `exit()` touches, plus a
count of `roomClosed` emissions. -/
structure ExitState where
  autobaseClosed : Bool
  swarmInTopic : Bool
  pairingClosed : Bool
  swarmDestroyed : Bool
  corestoreClosed : Bool
  hasListeners : Bool
  roomClosedEmits : Nat
  deriving DecidableEq, Repr

/-- The notification `exit()` emits. -/
inductive ExitEvent where
  | roomClosed
  deriving DecidableEq, Repr

/-- `BreakoutRoom.exit()`: append the `leftChat` farewell entry, flush,
leave the swarm topic, close the log, close each internally managed
resource, emit `roomClosed` and drop all listeners.  The first statement
is an append against the log; the external replication engine rejects
operations on a closed log, so a call made after the session closed
fails there (modelled as `Except.error "SESSION_CLOSED"`) before
reaching any later step.  `im` is the `internalManaged` property bag. -/
def exit (im : String → Bool) (st : ExitState) :
    Except String (ExitState × List ExitEvent) :=
  if st.autobaseClosed then Except.error "SESSION_CLOSED"
  else
    Except.ok
      ({ st with
          autobaseClosed := true
          swarmInTopic := false
          pairingClosed := st.pairingClosed || im "pairing"
          swarmDestroyed := st.swarmDestroyed || im "swarm"
          corestoreClosed := st.corestoreClosed || im "corestore"
          hasListeners := false
          roomClosedEmits := st.roomClosedEmits + 1 },
       [ExitEvent.roomClosed])

/-- The `internalManaged` property bag as set up by the `RoomManager`
constructor: each of the three well-spelled keys is true exactly when
the corresponding resource was not supplied by the caller (and was
therefore created internally); any other key reads as a falsy absent
property. -/
def mkInternalManaged (optsCorestore optsSwarm optsPairing : Bool) :
    String → Bool :=
  fun k =>
    if k = "corestore" then !optsCorestore
    else if k = "swarm" then !optsSwarm
    else if k = "pairing" then !optsPairing
    else false

/-- The external calls `RoomManager.cleanup()` performs. -/
inductive CleanupEffect where
  | exitRoom (roomId : String)
  | closePairing
  | destroySwarm
  | closeCorestore
  deriving DecidableEq, Repr

/-- The slice of a `RoomManager`'s state that `cleanup()` touches. -/
structure ManagerState where
  internalManaged : String → Bool
  rooms : List String

/-- `RoomManager.cleanup()`: exit every tracked room, clear the map,
then close the pairing and swarm when internally managed.  The corestore
branch reads the misspelled property `internalManaged.corestere`
(index.mjs line 155) — an absent key, hence falsy — exactly as the
source does. -/
def cleanup (st : ManagerState) : ManagerState × List CleanupEffect :=
  ({ st with rooms := [] },
    st.rooms.map CleanupEffect.exitRoom
      ++ (if st.internalManaged "pairing" then [CleanupEffect.closePairing] else [])
      ++ (if st.internalManaged "swarm" then [CleanupEffect.destroySwarm] else [])
      ++ (if st.internalManaged "corestere" then [CleanupEffect.closeCorestore] else []))

end Room

namespace Room

theorem applyNodes_cons (n : Value) (ns : List Value) (st : ApplyState) :
    applyNodes (n :: ns) st = applyNodes ns (applyStep st n) := rfl

theorem applyStep_view (st : ApplyState) (v : Value) :
    (applyStep st v).view =
      st.view ++ (if v.addWriter.isNone then [v] else []) := by
  cases h : v.addWriter with
  | none => simp [applyStep, h]
  | some aw =>
      by_cases ht : jsTruthyStr aw.typeTag <;> simp [applyStep, h, ht]

theorem applyStep_writers (st : ApplyState) (v : Value) :
    (applyStep st v).writers =
      st.writers ++ (admittedKey v).toList := by
  cases h : v.addWriter with
  | none => simp [applyStep, admittedKey, h]
  | some aw =>
      by_cases ht : jsTruthyStr aw.typeTag <;>
        simp [applyStep, admittedKey, h, ht]

/-- **C1.**  The materializer's `apply` step appends to the View exactly
the entries without an `addWriter` field, verbatim and in order, so the
View contains only data entries; an entry with an `addWriter` field is
never appended to the View: it is applied as a membership mutation
(admitting the named key as a writer) unless its payload carries a
truthy `type` tag, in which case it is skipped entirely (no writer
admitted, nothing appended). -/
theorem apply_materializes_view (nodes : List Value) (st : ApplyState) :
    (applyNodes nodes st).view
        = st.view ++ nodes.filter (fun v => v.addWriter.isNone)
      ∧ (applyNodes nodes st).writers
        = st.writers ++ nodes.filterMap admittedKey := by
  induction nodes generalizing st with
  | nil => simp [applyNodes]
  | cons n ns ih =>
      rcases ih (applyStep st n) with ⟨hv, hw⟩
      constructor
      · rw [applyNodes_cons, hv, applyStep_view]
        cases h : n.addWriter <;> simp [h, List.filter]
      · rw [applyNodes_cons, hw, applyStep_writers]
        cases h : admittedKey n <;> simp [h, List.filterMap_cons]

end Room

namespace Room

/-- **C2 counterexample.**  The claim that every View length transition
emits exactly one notification, never zero and never duplicated on
repeated firings, is false on the code: a self-authored entry produces
zero notifications, and a remote `leftChat` entry re-emits `peerLeft` on
every firing at the same View length (the `lastEmitMessageLength` guard
sits after the `leftChat` early return). -/
theorem append_handler_notification_cex :
    appendHandler "me" [⟨none, some 0, some "me", some "hi", none⟩] 0 = (0, [])
    ∧ runTrace "me"
        [[⟨none, some 1, some "peer", none, some "leftChat"⟩],
         [⟨none, some 1, some "peer", none, some "leftChat"⟩]] 0
      = (0, [Notif.peerLeft (some "peer"), Notif.peerLeft (some "peer")]) := by
  constructor <;> rfl

/-- **C2 (amended).**  For a View transition whose new last entry is not
authored by the local identity, a firing of the append handler at an
unnotified length emits exactly one notification — one `peerLeft` for a
`leftChat` entry (leaving the length guard unchanged), otherwise one
`message`, never both; and after a `message` emission a repeated firing
at the same View length emits nothing.  (Self-authored entries emit
nothing, and repeated firings for a `leftChat` entry re-emit `peerLeft`:
see the counterexample.) -/
theorem append_handler_single_notification
    (localWho : String) (view : List Value) (lastLen : Nat) (e : Value)
    (hlast : view.getLast? = some e)
    (hwho : e.who ≠ some localWho)
    (hlen : lastLen ≠ view.length) :
    (appendHandler localWho view lastLen).2.length = 1
    ∧ (e.event = some "leftChat" →
        appendHandler localWho view lastLen = (lastLen, [Notif.peerLeft e.who]))
    ∧ (e.event ≠ some "leftChat" →
        appendHandler localWho view lastLen = (view.length, [Notif.message e])
        ∧ (appendHandler localWho view view.length).2 = []) := by
  by_cases hev : e.event = some "leftChat" <;>
    simp [appendHandler, hlast, hwho, hlen, hev]

/-- Closed witness for the amended C2 theorem at a concrete remote data
entry. -/
theorem append_handler_single_notification_witness :
    (Value.who ⟨none, some 0, some "peer", some "hi", none⟩ ≠ some "me")
    ∧ (0 ≠ [(⟨none, some 0, some "peer", some "hi", none⟩ : Value)].length)
    ∧ (appendHandler "me" [⟨none, some 0, some "peer", some "hi", none⟩] 0).2.length = 1 :=
  ⟨by decide, by decide,
    (append_handler_single_notification "me"
      [⟨none, some 0, some "peer", some "hi", none⟩] 0
      ⟨none, some 0, some "peer", some "hi", none⟩
      (by rfl) (by decide) (by decide)).1⟩

/-- **C3.**  An entry whose `who` equals the local identity, inspected as
the most recent View entry, produces no notification at all: the handler
returns leaving the guard state unchanged and emits nothing. -/
theorem no_self_notification
    (localWho : String) (view : List Value) (lastLen : Nat) (e : Value)
    (hlast : view.getLast? = some e)
    (hwho : e.who = some localWho) :
    appendHandler localWho view lastLen = (lastLen, []) := by
  simp [appendHandler, hlast, hwho]

/-- Closed witness for C3 at a concrete self-authored entry. -/
theorem no_self_notification_witness :
    ([(⟨none, some 2, some "me", some "mine", none⟩ : Value)].getLast?
        = some ⟨none, some 2, some "me", some "mine", none⟩)
    ∧ appendHandler "me" [⟨none, some 2, some "me", some "mine", none⟩] 7 = (7, []) :=
  ⟨by rfl,
    no_self_notification "me" [⟨none, some 2, some "me", some "mine", none⟩] 7
      ⟨none, some 2, some "me", some "mine", none⟩ (by rfl) (by rfl)⟩

theorem mem_appendHandler_message
    (localWho : String) (v : List Value) (l : Nat) (e : Value)
    (h : Notif.message e ∈ (appendHandler localWho v l).2) :
    v.getLast? = some e := by
  cases hg : v.getLast? <;> simp [appendHandler, hg] at h
  split_ifs at h <;> simp_all

theorem mem_appendHandler_peerLeft
    (localWho : String) (v : List Value) (l : Nat) (w : Option String)
    (h : Notif.peerLeft w ∈ (appendHandler localWho v l).2) :
    ∃ e, v.getLast? = some e ∧ e.who = w ∧ e.event = some "leftChat" := by
  cases hg : v.getLast? <;> simp [appendHandler, hg] at h
  split_ifs at h <;> simp_all

/-- **C10.**  The append handler inspects only the entry at the current
last View position: its result depends only on the last entry and the
View length, every `message` notification in a firing trace carries the
last entry of the View at some firing, and every `peerLeft` notification
comes from a `leftChat` entry that was the last entry at some firing —
so entries of a burst that are never at the last position when the
handler runs never produce a notification at any time. -/
theorem handler_inspects_only_last
    (localWho : String) (views : List (List Value)) (lastLen : Nat) :
    (∀ v1 v2 l, v1.getLast? = v2.getLast? → v1.length = v2.length →
        appendHandler localWho v1 l = appendHandler localWho v2 l)
    ∧ (∀ e, Notif.message e ∈ (runTrace localWho views lastLen).2 →
        ∃ v ∈ views, v.getLast? = some e)
    ∧ (∀ w, Notif.peerLeft w ∈ (runTrace localWho views lastLen).2 →
        ∃ v ∈ views, ∃ e, v.getLast? = some e ∧ e.who = w
          ∧ e.event = some "leftChat") := by
  refine ⟨fun v1 v2 l h1 h2 => ?_, ?_, ?_⟩
  · unfold appendHandler
    rw [h1, h2]
  · induction views generalizing lastLen with
    | nil => intro e h; simp [runTrace] at h
    | cons v vs ih =>
        intro e h
        simp only [runTrace, List.mem_append] at h
        rcases h with h | h
        · exact ⟨v, List.mem_cons_self v vs, mem_appendHandler_message _ _ _ _ h⟩
        · rcases ih _ e h with ⟨v', hv', he⟩
          exact ⟨v', List.mem_cons_of_mem _ hv', he⟩
  · induction views generalizing lastLen with
    | nil => intro w h; simp [runTrace] at h
    | cons v vs ih =>
        intro w h
        simp only [runTrace, List.mem_append] at h
        rcases h with h | h
        · rcases mem_appendHandler_peerLeft _ _ _ _ h with ⟨e, he⟩
          exact ⟨v, List.mem_cons_self v vs, e, he⟩
        · rcases ih _ w h with ⟨v', hv', he⟩
          exact ⟨v', List.mem_cons_of_mem _ hv', he⟩

/-- Closed witness for C10: in a two-firing trace the emitted `message`
notification carries the final entry of the second firing's View. -/
theorem handler_inspects_only_last_witness :
    (Notif.message ⟨none, some 3, some "peer", some "b", none⟩
        ∈ (runTrace "me"
            [[⟨none, some 3, some "peer", some "a", none⟩,
              ⟨none, some 3, some "peer", some "b", none⟩]] 0).2)
    ∧ ∃ v ∈ [[(⟨none, some 3, some "peer", some "a", none⟩ : Value),
              ⟨none, some 3, some "peer", some "b", none⟩]],
        v.getLast? = some ⟨none, some 3, some "peer", some "b", none⟩ :=
  ⟨by decide,
    (handler_inspects_only_last "me"
      [[⟨none, some 3, some "peer", some "a", none⟩,
        ⟨none, some 3, some "peer", some "b", none⟩]] 0).2.1
      ⟨none, some 3, some "peer", some "b", none⟩ (by decide)⟩

end Room

namespace Room

namespace z32

theorem bitsToNatAux_natToBits (w b : Nat) :
    ∀ acc, bitsToNatAux acc (natToBits w b) = acc * 2 ^ w + b % 2 ^ w := by
  induction w with
  | zero => intro acc; simp [natToBits, bitsToNatAux, Nat.mod_one]
  | succ w ih =>
      intro acc
      have hd : (decide (b / 2 ^ w % 2 = 1)).toNat = b / 2 ^ w % 2 := by
        rcases Nat.mod_two_eq_zero_or_one (b / 2 ^ w) with h | h <;> simp [h]
      have hm : b % 2 ^ (w + 1) = b % 2 ^ w + 2 ^ w * (b / 2 ^ w % 2) := by
        rw [pow_succ, Nat.mod_mul]
      simp only [natToBits, bitsToNatAux, ih, hd]
      rw [hm, pow_succ]; ring

theorem bitsToNat_natToBits (w b : Nat) :
    bitsToNat (natToBits w b) = b % 2 ^ w := by
  simpa [bitsToNat] using bitsToNatAux_natToBits w b 0

theorem bitsToNatAux_eq (l : List Bool) :
    ∀ acc, bitsToNatAux acc l = acc * 2 ^ l.length + bitsToNat l := by
  induction l with
  | nil => intro acc; simp [bitsToNatAux, bitsToNat]
  | cons b l ih =>
      intro acc
      have lhs : bitsToNatAux acc (b :: l) = bitsToNatAux (2 * acc + b.toNat) l := rfl
      have rhs : bitsToNat (b :: l) = bitsToNatAux (2 * 0 + b.toNat) l := rfl
      rw [lhs, rhs, ih, ih, List.length_cons, pow_succ]; ring

theorem bitsToNat_lt (l : List Bool) : bitsToNat l < 2 ^ l.length := by
  induction l with
  | nil => simp [bitsToNat, bitsToNatAux]
  | cons b l ih =>
      have hb : bitsToNat (b :: l) = b.toNat * 2 ^ l.length + bitsToNat l := by
        have h0 : bitsToNat (b :: l) = bitsToNatAux (2 * 0 + b.toNat) l := rfl
        rw [h0, bitsToNatAux_eq]; ring
      have hble : b.toNat ≤ 1 := Bool.toNat_le b
      rw [hb, List.length_cons, pow_succ]
      calc b.toNat * 2 ^ l.length + bitsToNat l
          < b.toNat * 2 ^ l.length + 2 ^ l.length := Nat.add_lt_add_left ih _
        _ ≤ 1 * 2 ^ l.length + 2 ^ l.length := by gcongr
        _ = 2 ^ l.length * 2 := by ring

theorem natToBits_add_mul (w : Nat) :
    ∀ t m, natToBits w (t * 2 ^ w + m) = natToBits w m := by
  induction w with
  | zero => intro t m; rfl
  | succ w ih =>
      intro t m
      have hcast : t * 2 ^ (w + 1) + m = m + 2 * t * 2 ^ w := by
        rw [pow_succ]; ring
      have h1 : (t * 2 ^ (w + 1) + m) / 2 ^ w % 2 = m / 2 ^ w % 2 := by
        rw [hcast, Nat.add_mul_div_right _ _ (Nat.two_pow_pos w)]
        omega
      have h2 : natToBits w (t * 2 ^ (w + 1) + m) = natToBits w m := by
        have : t * 2 ^ (w + 1) + m = 2 * t * 2 ^ w + m := by rw [pow_succ]; ring
        rw [this, ih]
      simp only [natToBits, h1, h2]

theorem natToBits_bitsToNat (l : List Bool) :
    natToBits l.length (bitsToNat l) = l := by
  induction l with
  | nil => rfl
  | cons d l ih =>
      have hb : bitsToNat (d :: l) = d.toNat * 2 ^ l.length + bitsToNat l := by
        have h0 : bitsToNat (d :: l) = bitsToNatAux (2 * 0 + d.toNat) l := rfl
        rw [h0, bitsToNatAux_eq]; ring
      have hlt : bitsToNat l < 2 ^ l.length := bitsToNat_lt l
      have hdle : d.toNat ≤ 1 := Bool.toNat_le d
      have hdiv :
          (d.toNat * 2 ^ l.length + bitsToNat l) / 2 ^ l.length % 2 = d.toNat := by
        rw [mul_comm, Nat.mul_add_div (Nat.two_pow_pos l.length),
          Nat.div_eq_of_lt hlt]
        omega
      have hdd : decide (d.toNat = 1) = d := by cases d <;> rfl
      simp only [List.length_cons, natToBits, hb, hdiv, hdd,
        natToBits_add_mul, ih]

theorem natToBits_bitsToNat_of_length (w : Nat) (l : List Bool)
    (h : l.length = w) : natToBits w (bitsToNat l) = l :=
  h ▸ natToBits_bitsToNat l

end z32

end Room

namespace Room

namespace z32

theorem toQuintets_flatten (l : List Bool) :
    ((toQuintets l).map (natToBits 5)).flatten
      = l ++ List.replicate ((5 - l.length % 5) % 5) false := by
  induction l using toQuintets.induct with
  | case1 => rfl
  | case2 b0 b1 b2 b3 b4 rest ih =>
      have h5 : natToBits 5 (bitsToNat [b0, b1, b2, b3, b4]) = [b0, b1, b2, b3, b4] :=
        natToBits_bitsToNat_of_length 5 _ rfl
      have hmod : (rest.length + 5) % 5 = rest.length % 5 := Nat.add_mod_right _ _
      show ((bitsToNat [b0, b1, b2, b3, b4] :: toQuintets rest).map
          (natToBits 5)).flatten = _
      simp only [List.map_cons, List.flatten_cons, h5, ih, List.length_cons]
      have hlen : rest.length + 1 + 1 + 1 + 1 + 1 = rest.length + 5 := by omega
      simp [hlen, hmod]
  | case3 l h1 h2 =>
      rcases l with _ | ⟨b0, _ | ⟨b1, _ | ⟨b2, _ | ⟨b3, _ | ⟨b4, rest⟩⟩⟩⟩⟩
      · exact absurd rfl h1
      · have h5 : natToBits 5 (bitsToNat [b0, false, false, false, false]) = [b0, false, false, false, false] :=
          natToBits_bitsToNat_of_length 5 _ rfl
        show [natToBits 5 (bitsToNat [b0, false, false, false, false])].flatten = _
        rw [h5]; rfl
      · have h5 : natToBits 5 (bitsToNat [b0, b1, false, false, false]) = [b0, b1, false, false, false] :=
          natToBits_bitsToNat_of_length 5 _ rfl
        show [natToBits 5 (bitsToNat [b0, b1, false, false, false])].flatten = _
        rw [h5]; rfl
      · have h5 : natToBits 5 (bitsToNat [b0, b1, b2, false, false]) = [b0, b1, b2, false, false] :=
          natToBits_bitsToNat_of_length 5 _ rfl
        show [natToBits 5 (bitsToNat [b0, b1, b2, false, false])].flatten = _
        rw [h5]; rfl
      · have h5 : natToBits 5 (bitsToNat [b0, b1, b2, b3, false]) = [b0, b1, b2, b3, false] :=
          natToBits_bitsToNat_of_length 5 _ rfl
        show [natToBits 5 (bitsToNat [b0, b1, b2, b3, false])].flatten = _
        rw [h5]; rfl
      · exact absurd rfl (h2 b0 b1 b2 b3 b4 rest)

theorem toQuintets_lt (l : List Bool) : ∀ q ∈ toQuintets l, q < 32 := by
  induction l using toQuintets.induct with
  | case1 => intro q hq; simp [toQuintets] at hq
  | case2 b0 b1 b2 b3 b4 rest ih =>
      intro q hq
      replace hq : q ∈ bitsToNat [b0, b1, b2, b3, b4] :: toQuintets rest := hq
      rcases List.mem_cons.mp hq with h | h
      · subst h; simpa using bitsToNat_lt [b0, b1, b2, b3, b4]
      · exact ih q h
  | case3 l h1 h2 =>
      rcases l with _ | ⟨b0, _ | ⟨b1, _ | ⟨b2, _ | ⟨b3, _ | ⟨b4, rest⟩⟩⟩⟩⟩
      · exact absurd rfl h1
      · intro q hq
        replace hq : q ∈ [bitsToNat [b0, false, false, false, false]] := hq
        rw [List.mem_singleton.mp hq]
        simpa using bitsToNat_lt [b0, false, false, false, false]
      · intro q hq
        replace hq : q ∈ [bitsToNat [b0, b1, false, false, false]] := hq
        rw [List.mem_singleton.mp hq]
        simpa using bitsToNat_lt [b0, b1, false, false, false]
      · intro q hq
        replace hq : q ∈ [bitsToNat [b0, b1, b2, false, false]] := hq
        rw [List.mem_singleton.mp hq]
        simpa using bitsToNat_lt [b0, b1, b2, false, false]
      · intro q hq
        replace hq : q ∈ [bitsToNat [b0, b1, b2, b3, false]] := hq
        rw [List.mem_singleton.mp hq]
        simpa using bitsToNat_lt [b0, b1, b2, b3, false]
      · exact absurd rfl (h2 b0 b1 b2 b3 b4 rest)

theorem charIndex_quintetChar : ∀ q, q < 32 → charIndex (quintetChar q) = some q := by
  decide

theorem charsToQuintets_map (qs : List Nat) (h : ∀ q ∈ qs, q < 32) :
    charsToQuintets (qs.map quintetChar) = some qs := by
  induction qs with
  | nil => rfl
  | cons q qs ih =>
      have h1 : charIndex (quintetChar q) = some q :=
        charIndex_quintetChar q (h q (List.mem_cons_self q qs))
      have h2 := ih (fun x hx => h x (List.mem_cons_of_mem q hx))
      simp [charsToQuintets, h1, h2]

theorem fromOctets_short (l : List Bool) (h : l.length < 8) :
    fromOctets l = [] := by
  rcases l with _ | ⟨b0, _ | ⟨b1, _ | ⟨b2, _ | ⟨b3, _ | ⟨b4, _ | ⟨b5, _ | ⟨b6, _ | ⟨b7, rest⟩⟩⟩⟩⟩⟩⟩⟩ <;>
    first
      | rfl
      | (exfalso; simp only [List.length_cons] at h; omega)

theorem fromOctets_toBits (x : List Nat) (hx : ∀ b ∈ x, b < 256)
    (pad : List Bool) (hpad : pad.length < 8) :
    fromOctets (toBits x ++ pad) = x := by
  induction x with
  | nil => simpa [toBits] using fromOctets_short pad hpad
  | cons b xs ih =>
      have hb : b < 256 := hx b (List.mem_cons_self b xs)
      have hb2 : b < 2 ^ 8 := Nat.lt_of_lt_of_le hb (by norm_num)
      have hxs : ∀ a ∈ xs, a < 256 := fun a ha => hx a (List.mem_cons_of_mem b ha)
      have hcons : toBits (b :: xs) = natToBits 8 b ++ toBits xs := by
        simp [toBits]
      have hstep :
          fromOctets (natToBits 8 b ++ (toBits xs ++ pad))
            = bitsToNat (natToBits 8 b) :: fromOctets (toBits xs ++ pad) := rfl
      rw [hcons, List.append_assoc, hstep, bitsToNat_natToBits,
        Nat.mod_eq_of_lt hb2, ih hxs]

/-- **C9.**  The invite text codec round-trips byte-exactly:
`decode (encode x) = x` for every byte string `x` (in particular for the
invite-byte and public-key-byte lengths used by the system). -/
theorem decode_encode (x : List Nat) (hx : ∀ b ∈ x, b < 256) :
    decode (encode x) = some x := by
  unfold encode decode
  have hd : (String.mk ((toQuintets (toBits x)).map quintetChar)).data
      = (toQuintets (toBits x)).map quintetChar := rfl
  rw [hd, charsToQuintets_map _ (toQuintets_lt _), Option.map_some']
  rw [toQuintets_flatten]
  exact congrArg some
    (fromOctets_toBits x hx _
      (by
        rw [List.length_replicate]
        exact Nat.lt_of_lt_of_le (Nat.mod_lt _ (by norm_num)) (by norm_num)))

/-- Closed witness for C9 at a concrete five-byte string. -/
theorem decode_encode_witness :
    (∀ b ∈ [0, 1, 127, 128, 255], b < 256)
    ∧ decode (encode [0, 1, 127, 128, 255]) = some [0, 1, 127, 128, 255] :=
  ⟨by decide, decode_encode [0, 1, 127, 128, 255] (by decide)⟩

end z32

end Room

namespace Room

theorem whoamiStep_no_createRoom (wr : Bool) (cts : String → Option String)
    (vf : ChallengeResponse → Option String → Bool) (ag : AgreementMsg)
    (pk : String) :
    NREffect.createReadyRoom ∉
      Sum.elim Prod.snd Prod.snd (whoamiStep wr cts vf ag pk) := by
  unfold whoamiStep
  repeat' split
  all_goals simp

/-- **C4.**  When identity proof is required and the acceptance carries a
keybase whoami claim (with a truthy username), a `challengeResponse.text`
differing from the challenge stored for that exact remote public key
makes `newRoom` return the structured rejection
`{ ok: false, reason: "challengeText was modified" }` without throwing
and without performing any external call; and on every rejection path
whatsoever the room-creation step is never reached. -/
theorem challenge_mismatch_rejected
    (challengeTexts : String → Option String)
    (verify : ChallengeResponse → Option String → Bool)
    (validate : Option (String → PDetails → VResult))
    (newInvite : String) (agreement : AgreementMsg) (remotePublicKey : String)
    (w : WhoamiClaim) (kb : KeybaseClaim)
    (hw : agreement.whoami = some w)
    (hkb : w.keybase = some kb)
    (hu : jsTruthyStr kb.username = true)
    (hne : challengeTexts remotePublicKey ≠ some kb.challengeResponse.text) :
    newRoom true challengeTexts verify validate newInvite agreement remotePublicKey
      = (.err "challengeText was modified", [], challengeTexts)
    ∧ ∀ (wr : Bool) (cts : String → Option String)
        (vf : ChallengeResponse → Option String → Bool)
        (vd : Option (String → PDetails → VResult)) (inv : String)
        (ag : AgreementMsg) (pk : String) (r : String),
        (newRoom wr cts vf vd inv ag pk).1 = .err r →
        NREffect.createReadyRoom ∉ (newRoom wr cts vf vd inv ag pk).2.1 := by
  constructor
  · unfold newRoom whoamiStep
    simp [hw, hkb, hu, hne]
  · intro wr cts vf vd inv ag pk r h
    have hno := whoamiStep_no_createRoom wr cts vf ag pk
    unfold newRoom at h ⊢
    cases hws : whoamiStep wr cts vf ag pk with
    | inr rr =>
        rw [hws] at hno
        replace hno : NREffect.createReadyRoom ∉ rr.2 := hno
        simpa using hno
    | inl pe =>
        rcases pe with ⟨pd, effs⟩
        rw [hws] at h hno
        replace hno : NREffect.createReadyRoom ∉ effs := hno
        cases vd with
        | none => simp at h
        | some v =>
            by_cases hok : (v ag.accept pd).ok
            · simp [hok] at h
            · simp [hok, List.mem_append, hno]

/-- Closed witness for C4: a concrete mismatching acceptance is rejected
with reason `challengeText was modified`. -/
theorem challenge_mismatch_rejected_witness :
    (AgreementMsg.whoami ⟨some ⟨some ⟨some "alice", ⟨"tampered", "sig"⟩⟩⟩, "acc"⟩
        = some ⟨some ⟨some "alice", ⟨"tampered", "sig"⟩⟩⟩)
    ∧ jsTruthyStr (some "alice") = true
    ∧ (fun k => if k = "pk" then some "issued" else none) "pk"
        ≠ some (ChallengeResponse.text ⟨"tampered", "sig"⟩)
    ∧ newRoom true (fun k => if k = "pk" then some "issued" else none)
        (fun _ _ => true) none "INV"
        ⟨some ⟨some ⟨some "alice", ⟨"tampered", "sig"⟩⟩⟩, "acc"⟩ "pk"
      = (.err "challengeText was modified", [],
          fun k => if k = "pk" then some "issued" else none) :=
  ⟨rfl, rfl, by decide,
    (challenge_mismatch_rejected
      (fun k => if k = "pk" then some "issued" else none)
      (fun _ _ => true) none "INV"
      ⟨some ⟨some ⟨some "alice", ⟨"tampered", "sig"⟩⟩⟩, "acc"⟩ "pk"
      ⟨some ⟨some "alice", ⟨"tampered", "sig"⟩⟩⟩
      ⟨some "alice", ⟨"tampered", "sig"⟩⟩
      rfl rfl rfl (by decide)).1⟩

/-- **C5 counterexample.**  The claim that an issued challenge text is
consumed by the first matching acceptance is false on the code: `newRoom`
never deletes `challengeTexts[remotePublicKey]`, so a second acceptance
presenting the same challenge text for the same key is accepted again
and the stored challenge survives the first acceptance. -/
theorem challenge_not_consumed_cex :
    (newRoom true (fun k => if k = "pk" then some "xyz" else none)
        (fun _ _ => true) none "INV"
        ⟨some ⟨some ⟨some "alice", ⟨"xyz", "sig"⟩⟩⟩, "acc"⟩ "pk").1
      = NewRoomResult.ok "INV"
    ∧ (newRoom true (fun k => if k = "pk" then some "xyz" else none)
        (fun _ _ => true) none "INV"
        ⟨some ⟨some ⟨some "alice", ⟨"xyz", "sig"⟩⟩⟩, "acc"⟩ "pk").2.2 "pk"
      = some "xyz"
    ∧ (newRoom true
        ((newRoom true (fun k => if k = "pk" then some "xyz" else none)
          (fun _ _ => true) none "INV"
          ⟨some ⟨some ⟨some "alice", ⟨"xyz", "sig"⟩⟩⟩, "acc"⟩ "pk").2.2)
        (fun _ _ => true) none "INV"
        ⟨some ⟨some ⟨some "alice", ⟨"xyz", "sig"⟩⟩⟩, "acc"⟩ "pk").1
      = NewRoomResult.ok "INV" := by
  refine ⟨rfl, rfl, rfl⟩

/-- **C5 (amended).**  The challenge store is per-remote-key and
last-write-wins, but a challenge is **not** consumed by a matching
acceptance: `newRoom` leaves the `challengeTexts` map unchanged on every
path (so an identical second acceptance is accepted again, see the
counterexample), while issuing a second expectations request for the
same key overwrites the pending challenge with the fresh one,
cancelling the earlier one. -/
theorem challenge_persistence_and_overwrite
    (wr : Bool) (cts : String → Option String)
    (vf : ChallengeResponse → Option String → Bool)
    (vd : Option (String → PDetails → VResult)) (inv : String)
    (ag : AgreementMsg) (pk : String)
    (expct : ExpectationsCfg) (ku : String)
    (sign : String → Option ChallengeResponse) (fresh : String)
    (query : Option String) (pk2 : String)
    (hreq : expct.whoamiRequired = true) :
    (newRoom wr cts vf vd inv ag pk).2.2 = cts
    ∧ (roomExpectations expct ku sign fresh query pk2 cts).2 pk2 = some fresh := by
  constructor
  · unfold newRoom
    cases hws : whoamiStep wr cts vf ag pk with
    | inr rr => simp
    | inl pe =>
        rcases pe with ⟨pd, effs⟩
        cases vd with
        | none => simp
        | some v => by_cases hok : (v ag.accept pd).ok <;> simp [hok]
  · simp [roomExpectations, hreq]

/-- Closed witness for the amended C5 theorem at concrete inputs. -/
theorem challenge_persistence_and_overwrite_witness :
    ExpectationsCfg.whoamiRequired ⟨true, "why", "rules"⟩ = true
    ∧ (roomExpectations ⟨true, "why", "rules"⟩ "host" (fun _ => none) "fresh1"
        none "pk" (fun _ => none)).2 "pk" = some "fresh1" :=
  ⟨rfl,
    (challenge_persistence_and_overwrite true (fun _ => none) (fun _ _ => true)
      none "INV" ⟨none, "acc"⟩ "pk" ⟨true, "why", "rules"⟩ "host"
      (fun _ => none) "fresh1" none "pk" rfl).2⟩

end Room

namespace Room

/-- **C6 (code-bug evidence).**  `ready()` is guarded by `initialized`,
but the early-return path returns `this.invite` — the raw invite bytes —
not the z32-encoded invite string the first host call returned (the
JSDoc declares `Promise<string|void>`); on a joiner the second call
returns the decoded invite bytes instead of nothing.  Evaluated at a
concrete host and a concrete joiner session. -/
theorem ready_second_call_returns_raw_bytes :
    (ready ⟨[1], [1, 2, 3], [4], [5]⟩ ⟨false, none, none, none, none, none⟩).2
      = ReadyReturn.encodedInvite (z32.encode [1, 2, 3])
    ∧ (ready ⟨[1], [1, 2, 3], [4], [5]⟩
        (ready ⟨[1], [1, 2, 3], [4], [5]⟩
          ⟨false, none, none, none, none, none⟩).1).2
      = ReadyReturn.rawInvite [1, 2, 3]
    ∧ ReadyReturn.rawInvite [1, 2, 3]
        ≠ ReadyReturn.encodedInvite (z32.encode [1, 2, 3])
    ∧ (ready ⟨[1], [1, 2, 3], [4], [5]⟩
        ⟨false, some [9, 8], none, none, none, none⟩).2 = ReadyReturn.undef
    ∧ (ready ⟨[1], [1, 2, 3], [4], [5]⟩
        (ready ⟨[1], [1, 2, 3], [4], [5]⟩
          ⟨false, some [9, 8], none, none, none, none⟩).1).2
      = ReadyReturn.rawInvite [9, 8] :=
  ⟨rfl, rfl, by decide, rfl, rfl⟩

/-- **C7 counterexample.**  `exit()` carries no idempotence guard: after
a completed exit the session's log is closed, and a second call fails at
the farewell append against the closed log instead of being a no-op that
returns the same terminal state. -/
theorem exit_second_call_errors_cex :
    Room.exit (fun _ => true) ⟨false, true, false, false, false, true, 0⟩
      = Except.ok (⟨true, false, true, true, true, false, 1⟩,
          [ExitEvent.roomClosed])
    ∧ Room.exit (fun _ => true) ⟨true, false, true, true, true, false, 1⟩
      = Except.error "SESSION_CLOSED"
    ∧ (Except.error "SESSION_CLOSED"
        : Except String (ExitState × List ExitEvent))
      ≠ Except.ok (⟨true, false, true, true, true, false, 1⟩, []) :=
  ⟨rfl, rfl, by simp⟩

/-- **C7 (amended).**  `exit()` is not idempotent: the first call on an
open session closes it and emits `roomClosed` exactly once, and a second
call on the now-closed session is not a no-op — it fails at the farewell
append against the closed log, emitting nothing and leaving the closed
state unchanged, so `roomClosed` is emitted exactly once across both
calls. -/
theorem exit_not_idempotent (im : String → Bool) (st : ExitState)
    (h : st.autobaseClosed = false) :
    ∃ st1 : ExitState,
      Room.exit im st = Except.ok (st1, [ExitEvent.roomClosed])
      ∧ st1.autobaseClosed = true
      ∧ st1.roomClosedEmits = st.roomClosedEmits + 1
      ∧ Room.exit im st1 = Except.error "SESSION_CLOSED" := by
  refine ⟨{ st with
      autobaseClosed := true
      swarmInTopic := false
      pairingClosed := st.pairingClosed || im "pairing"
      swarmDestroyed := st.swarmDestroyed || im "swarm"
      corestoreClosed := st.corestoreClosed || im "corestore"
      hasListeners := false
      roomClosedEmits := st.roomClosedEmits + 1 }, ?_, rfl, rfl, ?_⟩
  · simp [Room.exit, h]
  · simp [Room.exit]

/-- Closed witness for the amended C7 theorem at a concrete session. -/
theorem exit_not_idempotent_witness :
    ExitState.autobaseClosed ⟨false, true, false, false, false, true, 0⟩ = false
    ∧ ∃ st1 : ExitState,
        Room.exit (fun _ => false) ⟨false, true, false, false, false, true, 0⟩
          = Except.ok (st1, [ExitEvent.roomClosed])
        ∧ st1.autobaseClosed = true
        ∧ st1.roomClosedEmits = 0 + 1
        ∧ Room.exit (fun _ => false) st1 = Except.error "SESSION_CLOSED" :=
  ⟨rfl,
    exit_not_idempotent (fun _ => false)
      ⟨false, true, false, false, false, true, 0⟩ rfl⟩

/-- **C8 (code-bug evidence).**  `cleanup()` checks the misspelled
property `internalManaged.corestere`, which the constructor never sets,
so the registry-owned corestore is never closed — for every constructor
option combination (including an internally created corestore) and every
set of tracked rooms, no `closeCorestore` call is ever performed. -/
theorem cleanup_never_closes_corestore
    (optsCorestore optsSwarm optsPairing : Bool) (rooms : List String) :
    mkInternalManaged optsCorestore optsSwarm optsPairing "corestere" = false
    ∧ CleanupEffect.closeCorestore ∉
        (cleanup ⟨mkInternalManaged optsCorestore optsSwarm optsPairing,
          rooms⟩).2 := by
  have hp : mkInternalManaged optsCorestore optsSwarm optsPairing "pairing"
      = !optsPairing := rfl
  have hs : mkInternalManaged optsCorestore optsSwarm optsPairing "swarm"
      = !optsSwarm := rfl
  have hc : mkInternalManaged optsCorestore optsSwarm optsPairing "corestere"
      = false := rfl
  refine ⟨hc, ?_⟩
  simp only [cleanup, hp, hs, hc]
  cases optsPairing <;> cases optsSwarm <;>
    simp [List.mem_append, List.mem_map]

end Room
